import Mathlib

/-
Formal model of the zone-counting and periodic-persistence engine of the
Human-Activity-Monitor repository (src/components/features/track_box.py).

The Python classes `Box` and `TrackBox` are shallowly embedded as Lean
structures; their mutating methods become state-passing functions.  Python
exceptions (ZeroDivisionError, ValueError from `int(nan)`, AttributeError)
are modelled by `Option`, with `none` standing for a raised exception.
Python float arithmetic in `TrackBox.save` is modelled by exact rationals,
matching the real-arithmetic reading used by the specification.  File I/O
is modelled by keeping the list of lines written to the destination file
inside the persistence state.
-/

namespace TrackBoxModel

/-- Python `int(q)` on a rational: truncation toward zero. -/
def ratTrunc (q : ℚ) : ℤ :=
  if 0 ≤ q then ⌊q⌋ else ⌈q⌉

/-- Python `x % y` on rationals (`y ≠ 0`): `x - y * floor (x / y)`, the result
having the sign of `y`, exactly as Python computes the binary `%`. -/
def pyMod (x y : ℚ) : ℚ :=
  x - y * ⌊x / y⌋

theorem ratTrunc_intCast (z : ℤ) : ratTrunc ((z : ℚ)) = z := by
  unfold ratTrunc
  split
  · exact Int.floor_intCast z
  · exact Int.ceil_intCast z

theorem pyMod_eq_zero_iff {x y : ℚ} (hy : y ≠ 0) :
    pyMod x y = 0 ↔ ∃ k : ℤ, x = y * k := by
  unfold pyMod
  constructor
  · intro h
    exact ⟨⌊x / y⌋, by linarith⟩
  · rintro ⟨k, rfl⟩
    rw [mul_div_cancel_left₀ _ hy, Int.floor_intCast]
    ring

-- Truncated integer mean: natural division agrees with rational truncation.
theorem natDiv_eq_ratTrunc (a b : ℕ) :
    ((a / b : ℕ) : ℤ) = ratTrunc ((a : ℚ) / (b : ℚ)) := by
  have hq : (0 : ℚ) ≤ (a : ℚ) / (b : ℚ) :=
    div_nonneg (by positivity) (by positivity)
  unfold ratTrunc
  rw [if_pos hq]
  have h1 : ((a : ℤ) : ℚ) = (a : ℚ) := by push_cast; ring
  rw [← h1, Rat.floor_intCast_div_natCast]
  exact Int.natCast_div a b

/-! Embedding of the Python class `Box` (one counting zone).  The rendering
fields (`color`, thicknesses, `text_config`, `box_config`) only feed the
excluded drawing collaborator and carry no logic, so they are omitted; the
four `xyxy` coordinates, the name, the deque bound and the mutable
`history` / `count` state are kept. -/

structure Box where
  name : String
  x1 : ℤ
  y1 : ℤ
  x2 : ℤ
  y2 : ℤ
  smoothness : ℕ
  history : List ℕ
  count : ℕ
  deriving DecidableEq

/-- Box.__init__: `history = deque([], maxlen=smoothness)`, `count = 0`. -/
def Box.init (name : String) (x1 y1 x2 y2 : ℤ) (smoothness : ℕ) : Box :=
  { name := name, x1 := x1, y1 := y1, x2 := x2, y2 := y2,
    smoothness := smoothness, history := [], count := 0 }

/-- Box.check: `if (x1 <= X <= x2) and (y1 <= Y <= y2): self.count += 1`. -/
def Box.check (pos : ℤ × ℤ) (b : Box) : Box :=
  if b.x1 ≤ pos.1 ∧ pos.1 ≤ b.x2 ∧ b.y1 ≤ pos.2 ∧ pos.2 ≤ b.y2 then
    { b with count := b.count + 1 }
  else b

/-- Appending to a `collections.deque` with `maxlen`: the element is added on
the right and, if the deque would exceed `maxlen`, the leftmost (oldest)
elements are discarded. -/
def dequeAppend (maxlen : ℕ) (h : List ℕ) (v : ℕ) : List ℕ :=
  let h2 := h ++ [v]
  h2.drop (h2.length - maxlen)

/-- Box.update: `self.history.append(self.count); self.count = 0`. -/
def Box.update (b : Box) : Box :=
  { b with history := dequeAppend b.smoothness b.history b.count, count := 0 }

/-- Box.get_value: `int(np.mean(self.history))`.  On a nonempty history of
naturals this is the truncated integer mean, i.e. natural division of the sum
by the length.  On an empty history `np.mean` yields `nan` and `int(nan)`
raises `ValueError`, modelled by `none`. -/
def Box.get_value (b : Box) : Option ℕ :=
  if b.history = [] then none
  else some (b.history.sum / b.history.length)

/-- One caller-side operation on a single box: a `check` with some position,
or the end-of-frame `update` tick. -/
inductive BoxOp where
  | check (pos : ℤ × ℤ)
  | update
  deriving DecidableEq

/-- Runs a sequence of operations against a box, left to right. -/
def Box.run (b : Box) : List BoxOp → Box
  | [] => b
  | BoxOp.check pos :: ops => Box.run (Box.check pos b) ops
  | BoxOp.update :: ops => Box.run (Box.update b) ops

/-- Feeds one frame worth of activity to a box: `c` detections at position
(5, 5) followed by the frame tick. -/
def Box.feed (b : Box) (c : ℕ) : Box :=
  b.run (List.replicate c (BoxOp.check ((5 : ℤ), (5 : ℤ))) ++ [BoxOp.update])

-- Simple facts about the box operations, shared by several proofs below.

theorem Box.check_smoothness (pos : ℤ × ℤ) (b : Box) :
    (Box.check pos b).smoothness = b.smoothness := by
  unfold Box.check
  split <;> rfl

theorem Box.check_history (pos : ℤ × ℤ) (b : Box) :
    (Box.check pos b).history = b.history := by
  unfold Box.check
  split <;> rfl

theorem Box.update_smoothness (b : Box) :
    (Box.update b).smoothness = b.smoothness := rfl

theorem dequeAppend_length (m : ℕ) (h : List ℕ) (v : ℕ) :
    (dequeAppend m h v).length = min (h.length + 1) m := by
  simp [dequeAppend]
  omega

theorem Box.run_smoothness (ops : List BoxOp) (b : Box) :
    (b.run ops).smoothness = b.smoothness := by
  induction ops generalizing b with
  | nil => rfl
  | cons op ops ih =>
    cases op with
    | check pos => rw [Box.run, ih, Box.check_smoothness]
    | update => rw [Box.run, ih, Box.update_smoothness]

theorem Box.run_history_length (ops : List BoxOp) (b : Box)
    (hb : b.history.length ≤ b.smoothness) :
    (b.run ops).history.length ≤ (b.run ops).smoothness := by
  induction ops generalizing b with
  | nil => exact hb
  | cons op ops ih =>
    cases op with
    | check pos =>
      rw [Box.run]
      exact ih _ (by rw [Box.check_history, Box.check_smoothness]; exact hb)
    | update =>
      rw [Box.run]
      refine ih _ ?_
      rw [Box.update_smoothness]
      show (dequeAppend b.smoothness b.history b.count).length ≤ b.smoothness
      rw [dequeAppend_length]
      omega

-- Concrete boxes used by counterexamples and witnesses.

def boxA : Box := Box.init "A" 0 0 10 10 3

def boxH : Box := { boxA with history := [2, 5] }

/-- Claim C1 counterexample: `get_value` of a freshly constructed zone, whose
history is empty, raises (`int(np.mean([]))` is `int(nan)`, a `ValueError`,
modelled by `none`); it does not return 0. -/
theorem getValue_empty_fails :
    (Box.init "A" 0 0 10 10 3).get_value = none ∧
    (Box.init "A" 0 0 10 10 3).get_value ≠ some 0 := by
  exact ⟨rfl, by decide⟩

/-- Claim C1 (amended): on a nonempty history, `get_value` returns the
truncated (toward-zero) integer mean of the history; on an empty history the
call fails (raises `ValueError`) instead of returning 0. -/
theorem getValue_truncated_mean (b : Box) :
    (b.history = [] → b.get_value = none) ∧
    (b.history ≠ [] → ∃ v : ℕ, b.get_value = some v ∧
      (v : ℤ) = ratTrunc ((b.history.sum : ℚ) / (b.history.length : ℚ))) := by
  constructor
  · intro h
    unfold Box.get_value
    rw [if_pos h]
  · intro h
    refine ⟨b.history.sum / b.history.length, ?_, ?_⟩
    · unfold Box.get_value
      rw [if_neg h]
    · exact natDiv_eq_ratTrunc b.history.sum b.history.length

/-- Claim C1 witness: the amended theorem applied to a box with history
[2, 5] (mean 3.5, truncated to 3). -/
theorem getValue_truncated_mean_witness :
    boxH.history ≠ [] ∧ ∃ v : ℕ, boxH.get_value = some v ∧
      (v : ℤ) = ratTrunc ((boxH.history.sum : ℚ) / (boxH.history.length : ℚ)) :=
  ⟨by decide, (getValue_truncated_mean boxH).2 (by decide)⟩

/-- Claim C7: with the position (X, Y) inside the inclusive rectangle bounds,
`check` increments `count` by exactly one and changes nothing else; with the
position outside, `check` returns the box unchanged. -/
theorem check_count (b : Box) (X Y : ℤ) :
    ((b.x1 ≤ X ∧ X ≤ b.x2 ∧ b.y1 ≤ Y ∧ Y ≤ b.y2) →
      Box.check (X, Y) b = { b with count := b.count + 1 }) ∧
    (¬ (b.x1 ≤ X ∧ X ≤ b.x2 ∧ b.y1 ≤ Y ∧ Y ≤ b.y2) →
      Box.check (X, Y) b = b) := by
  unfold Box.check
  exact ⟨fun h => if_pos h, fun h => if_neg h⟩

/-- Claim C7 witness: (5, 5) is inside the rectangle (0,0)-(10,10) and bumps
the count; (11, 5) is outside and leaves the box untouched. -/
theorem check_count_witness :
    Box.check (5, 5) boxA = { boxA with count := boxA.count + 1 } ∧
    Box.check (11, 5) boxA = boxA :=
  ⟨(check_count boxA 5 5).1 (by decide), (check_count boxA 11 5).2 (by decide)⟩

-- Scenario A states: counts 2, 4, 6, 8 fed frame by frame.

def boxS1 : Box := (Box.init "A" 0 0 10 10 3).feed 2

def boxS2 : Box := boxS1.feed 4

def boxS3 : Box := boxS2.feed 6

def boxS4 : Box := boxS3.feed 8

/-- Claim C8: for the zone (0,0)-(10,10) with smoothness 3, feeding per-frame
counts 2, 4, 6, 8 through check-then-update yields histories [2], [2,4],
[2,4,6], [4,6,8] and smoothed values 2, 3, 4, 6. -/
theorem smoothing_scenario :
    boxS1.history = [2] ∧ boxS1.get_value = some 2 ∧
    boxS2.history = [2, 4] ∧ boxS2.get_value = some 3 ∧
    boxS3.history = [2, 4, 6] ∧ boxS3.get_value = some 4 ∧
    boxS4.history = [4, 6, 8] ∧ boxS4.get_value = some 6 := by
  decide

/-- Claim C9: from a zone constructed with smoothness s ≥ 1, after any
sequence of check/update operations the history length is at most s, and the
next update appends the pending count on the right — evicting the oldest
entry exactly when the history is at capacity — and resets the count to 0. -/
theorem history_bounded (name : String) (x1 y1 x2 y2 : ℤ) (s : ℕ) (hs : 1 ≤ s)
    (ops : List BoxOp) :
    ((Box.init name x1 y1 x2 y2 s).run ops).history.length ≤ s ∧
    (((Box.init name x1 y1 x2 y2 s).run ops).update).count = 0 ∧
    (((Box.init name x1 y1 x2 y2 s).run ops).update).history =
      (if ((Box.init name x1 y1 x2 y2 s).run ops).history.length < s then
        ((Box.init name x1 y1 x2 y2 s).run ops).history
      else ((Box.init name x1 y1 x2 y2 s).run ops).history.drop 1) ++
        [((Box.init name x1 y1 x2 y2 s).run ops).count] := by
  have hsm : ((Box.init name x1 y1 x2 y2 s).run ops).smoothness = s :=
    Box.run_smoothness ops _
  have hlen : ((Box.init name x1 y1 x2 y2 s).run ops).history.length ≤ s := by
    have := Box.run_history_length ops (Box.init name x1 y1 x2 y2 s)
      (by simp [Box.init])
    rwa [hsm] at this
  set b := (Box.init name x1 y1 x2 y2 s).run ops with hb
  refine ⟨hlen, rfl, ?_⟩
  show dequeAppend b.smoothness b.history b.count =
    (if b.history.length < s then b.history else b.history.drop 1) ++ [b.count]
  rw [hsm]
  by_cases hlt : b.history.length < s
  · rw [if_pos hlt]
    unfold dequeAppend
    simp only [List.length_append, List.length_cons, List.length_nil]
    have hz : b.history.length + 1 - s = 0 := by omega
    rw [hz, List.drop_zero]
  · rw [if_neg hlt]
    have heq : b.history.length = s := by omega
    unfold dequeAppend
    simp only [List.length_append, List.length_cons, List.length_nil]
    have h1 : b.history.length + 1 - s = 1 := by omega
    rw [h1, List.drop_append_of_le_length (by omega)]

/-- Claim C9 witness: smoothness 1, one detection then a tick; the bound and
the evict-then-append shape of the next update, concretely. -/
theorem history_bounded_witness :
    ((Box.init "A" 0 0 10 10 1).run [BoxOp.check (5, 5), BoxOp.update]).history.length ≤ 1 ∧
    (((Box.init "A" 0 0 10 10 1).run [BoxOp.check (5, 5), BoxOp.update]).update).count = 0 ∧
    (((Box.init "A" 0 0 10 10 1).run [BoxOp.check (5, 5), BoxOp.update]).update).history =
      (if ((Box.init "A" 0 0 10 10 1).run [BoxOp.check (5, 5), BoxOp.update]).history.length < 1 then
        ((Box.init "A" 0 0 10 10 1).run [BoxOp.check (5, 5), BoxOp.update]).history
      else ((Box.init "A" 0 0 10 10 1).run [BoxOp.check (5, 5), BoxOp.update]).history.drop 1) ++
        [((Box.init "A" 0 0 10 10 1).run [BoxOp.check (5, 5), BoxOp.update]).count] :=
  history_bounded "A" 0 0 10 10 1 (by decide) [BoxOp.check (5, 5), BoxOp.update]

/-! Embedding of the Python class `TrackBox` (the zone set plus the optional
persistence scheduler).  `self.save_conf` / `self.time`, which in Python come
into existence only when `config_save` has run (`hasattr` is the enabled
test), become an `Option PersistState`; the destination file's contents are
carried in the state as the list of lines written so far. -/

structure SaveConf where
  save_path : String
  interval : ℤ
  fps : ℤ
  speed : ℤ
  camera : Bool
  deriving DecidableEq

/-- Timestamp written in a data row: wall-clock HH:MM:SS when `camera`
(`datetime.now().strftime`), else the truncated integer `int(current)`. -/
inductive Timestamp where
  | wall (t : String)
  | second (s : ℤ)
  deriving DecidableEq

/-- One line of the destination file: the header written by `config_save`, or
a data row written by `save`. -/
inductive Entry where
  | header (camera : Bool) (names : List String)
  | row (ts : Timestamp) (vals : List ℕ)
  deriving DecidableEq

structure PersistState where
  conf : SaveConf
  time : ℕ
  file : List Entry
  deriving DecidableEq

structure TrackBox where
  boxes : List Box
  persistence : Option PersistState
  deriving DecidableEq

/-- TrackBox.check: `[box.check(pos) for box in self.boxes]`. -/
def TrackBox.check (pos : ℤ × ℤ) (tb : TrackBox) : TrackBox :=
  { tb with boxes := tb.boxes.map (Box.check pos) }

/-- TrackBox.config_save: opens `save_path` with mode "w" (truncating it),
writes the header line, then sets `self.time = 0` and stores `save_conf`
with `speed` clamped by `max(1, speed)`.  The code performs no validation of
`interval` or `fps`, and no check that persistence was already enabled: an
existing configuration and file are simply overwritten. -/
def TrackBox.config_save (save_path : String) (interval fps speed : ℤ)
    (camera : Bool) (tb : TrackBox) : TrackBox :=
  { tb with persistence := some (
      { conf := { save_path := save_path, interval := interval, fps := fps,
                  speed := max 1 speed, camera := camera },
        time := 0,
        file := [Entry.header camera (tb.boxes.map Box.name)] } : PersistState) }

/-- The local variable `current` of TrackBox.save:
`int(self.time * self.save_conf["speed"]) / self.save_conf["fps"]`.  Both
factors are Python ints, so the `int(...)` truncation is the identity; the
division is Python true division, modelled exactly on rationals. -/
def currentQ (p : PersistState) : ℚ :=
  (((p.time : ℤ) * p.conf.speed : ℤ) : ℚ) / (p.conf.fps : ℚ)

/-- TrackBox.save.  Following the source line by line: `current` is computed
first (ZeroDivisionError, i.e. `none`, when `fps = 0`); the guard
`self.time != 0 and current % interval == 0` short-circuits, so `interval`
is only used — and can only raise — when `time ≠ 0`; on a write, the row is
`time_format` followed by every box's `get_value()` (a `ValueError`, i.e.
`none`, if some history is empty); finally `time` is reset to 0 when
`camera` is set. -/
def TrackBox.save (now : String) (tb : TrackBox) : Option TrackBox :=
  match tb.persistence with
  | none => none
  | some p =>
    if p.conf.fps = 0 then none
    else if p.time = 0 then some tb
    else if p.conf.interval = 0 then none
    else if pyMod (currentQ p) (p.conf.interval : ℚ) = 0 then
      match tb.boxes.mapM Box.get_value with
      | none => none
      | some vals =>
        some { tb with persistence := some (
          { conf := p.conf,
            time := if p.conf.camera then 0 else p.time,
            file := p.file ++ [Entry.row
              (if p.conf.camera then Timestamp.wall now
               else Timestamp.second (ratTrunc (currentQ p))) vals] } : PersistState) }
    else some tb

/-- TrackBox.update: ticks every box, then, if `save_conf` exists, runs
`self.save()` and afterwards increments `self.time` by one regardless of
whether a row was written.  `now` is the wall clock supplied to the tick. -/
def TrackBox.update (now : String) (tb : TrackBox) : Option TrackBox :=
  let ticked : TrackBox := { tb with boxes := tb.boxes.map Box.update }
  match ticked.persistence with
  | none => some ticked
  | some _ =>
    (TrackBox.save now ticked).map fun tb2 =>
      { tb2 with persistence :=
          tb2.persistence.map fun p => { p with time := p.time + 1 } }

/-- Runs a sequence of update ticks, one per supplied wall-clock reading. -/
def TrackBox.runUpdates (clocks : List String) (tb : TrackBox) : Option TrackBox :=
  match clocks with
  | [] => some tb
  | c :: cs => (TrackBox.update c tb).bind (TrackBox.runUpdates cs)

-- Helper lemmas about the persistence scheduler, shared by the claim proofs.

theorem mapM_getValue_some (l : List Box) (h : ∀ b ∈ l, b.history ≠ []) :
    ∃ vals, l.mapM Box.get_value = some vals := by
  induction l with
  | nil => exact ⟨[], rfl⟩
  | cons b bs ih =>
    obtain ⟨vals, hv⟩ := ih (fun x hx => h x (List.mem_cons_of_mem _ hx))
    have hb : b.get_value = some (b.history.sum / b.history.length) := by
      unfold Box.get_value
      rw [if_neg (h b (List.mem_cons_self _ _))]
    exact ⟨b.history.sum / b.history.length :: vals, by
      rw [List.mapM_cons, hb, hv]; rfl⟩

theorem save_skip (now : String) (tb : TrackBox) (p : PersistState)
    (hp : tb.persistence = some p) (hfps : p.conf.fps ≠ 0)
    (h : p.time = 0 ∨ (p.conf.interval ≠ 0 ∧
      pyMod (currentQ p) (p.conf.interval : ℚ) ≠ 0)) :
    TrackBox.save now tb = some tb := by
  by_cases ht : p.time = 0
  · simp only [TrackBox.save, hp, if_neg hfps, if_pos ht]
  · rcases h with h0 | ⟨hint, hmod⟩
    · exact absurd h0 ht
    · simp only [TrackBox.save, hp, if_neg hfps, if_neg ht, if_neg hint, if_neg hmod]

theorem save_write (now : String) (tb : TrackBox) (p : PersistState) (vals : List ℕ)
    (hp : tb.persistence = some p) (hfps : p.conf.fps ≠ 0) (hint : p.conf.interval ≠ 0)
    (ht : p.time ≠ 0) (hmod : pyMod (currentQ p) (p.conf.interval : ℚ) = 0)
    (hvals : tb.boxes.mapM Box.get_value = some vals) :
    TrackBox.save now tb = some { tb with persistence := some (
      { conf := p.conf,
        time := if p.conf.camera then 0 else p.time,
        file := p.file ++ [Entry.row
          (if p.conf.camera then Timestamp.wall now
           else Timestamp.second (ratTrunc (currentQ p))) vals] } : PersistState) } := by
  simp only [TrackBox.save, hp, if_neg hfps, if_neg ht, if_neg hint, if_pos hmod, hvals]

theorem save_none_of_mapM_none (now : String) (tb : TrackBox) (p : PersistState)
    (hp : tb.persistence = some p) (hfps : p.conf.fps ≠ 0) (hint : p.conf.interval ≠ 0)
    (ht : p.time ≠ 0) (hmod : pyMod (currentQ p) (p.conf.interval : ℚ) = 0)
    (hvals : tb.boxes.mapM Box.get_value = none) :
    TrackBox.save now tb = none := by
  simp only [TrackBox.save, hp, if_neg hfps, if_neg ht, if_neg hint, if_pos hmod, hvals]

-- Inverse direction: everything a successful save call can have done.
theorem save_some_cases (now : String) (tb tb2 : TrackBox) (p : PersistState)
    (hp : tb.persistence = some p) (hsave : TrackBox.save now tb = some tb2) :
    p.conf.fps ≠ 0 ∧
    ((tb2 = tb ∧ ¬ (p.time ≠ 0 ∧ pyMod (currentQ p) (p.conf.interval : ℚ) = 0)) ∨
     (∃ vals, tb.boxes.mapM Box.get_value = some vals ∧
       p.time ≠ 0 ∧ p.conf.interval ≠ 0 ∧
       pyMod (currentQ p) (p.conf.interval : ℚ) = 0 ∧
       tb2 = { tb with persistence := some (
         { conf := p.conf,
           time := if p.conf.camera then 0 else p.time,
           file := p.file ++ [Entry.row
             (if p.conf.camera then Timestamp.wall now
              else Timestamp.second (ratTrunc (currentQ p))) vals] } : PersistState) })) := by
  by_cases hfps : p.conf.fps = 0
  · rw [show TrackBox.save now tb = none by
      simp only [TrackBox.save, hp, if_pos hfps]] at hsave
    exact Option.noConfusion hsave
  refine ⟨hfps, ?_⟩
  by_cases ht : p.time = 0
  · rw [save_skip now tb p hp hfps (Or.inl ht)] at hsave
    left
    exact ⟨(Option.some.injEq _ _ ▸ hsave).symm, fun hc => hc.1 ht⟩
  by_cases hint : p.conf.interval = 0
  · rw [show TrackBox.save now tb = none by
      simp only [TrackBox.save, hp, if_neg hfps, if_neg ht, if_pos hint]] at hsave
    exact Option.noConfusion hsave
  by_cases hmod : pyMod (currentQ p) (p.conf.interval : ℚ) = 0
  · rcases hv : tb.boxes.mapM Box.get_value with _ | vals
    · rw [save_none_of_mapM_none now tb p hp hfps hint ht hmod hv] at hsave
      exact Option.noConfusion hsave
    · rw [save_write now tb p vals hp hfps hint ht hmod hv] at hsave
      right
      exact ⟨vals, rfl, ht, hint, hmod, (Option.some.injEq _ _ ▸ hsave).symm⟩
  · rw [save_skip now tb p hp hfps (Or.inr ⟨hint, hmod⟩)] at hsave
    left
    exact ⟨(Option.some.injEq _ _ ▸ hsave).symm, fun hc => hmod hc.2⟩

theorem update_some_cases (now : String) (tb tbu : TrackBox) (p : PersistState)
    (hp : tb.persistence = some p)
    (hupd : TrackBox.update now tb = some tbu) :
    ∃ p2, tbu.persistence = some p2 ∧ p2.conf = p.conf ∧
      (p.conf.camera = false → p2.time = p.time + 1) := by
  obtain ⟨boxes, pers⟩ := tb
  simp only at hp
  subst hp
  simp only [TrackBox.update] at hupd
  rw [Option.map_eq_some'] at hupd
  obtain ⟨tb2, hsave, hf⟩ := hupd
  have hp2 : ({ boxes := List.map Box.update boxes, persistence := some p } :
      TrackBox).persistence = some p := rfl
  rcases (save_some_cases now _ tb2 p hp2 hsave).2 with ⟨heq, _⟩ | ⟨vals, _, _, _, _, heq⟩
  · subst heq
    refine ⟨{ p with time := p.time + 1 }, ?_, rfl, fun _ => rfl⟩
    rw [← hf]
    rfl
  · subst heq
    refine ⟨{ conf := p.conf,
              time := (if p.conf.camera then 0 else p.time) + 1,
              file := p.file ++ [Entry.row
                (if p.conf.camera then Timestamp.wall now
                 else Timestamp.second (ratTrunc (currentQ p))) vals] }, ?_, rfl, ?_⟩
    · rw [← hf]
      rfl
    · intro hcam
      rw [hcam]
      simp

theorem runUpdates_time (clocks : List String) (tb tbn : TrackBox) (p : PersistState)
    (hp : tb.persistence = some p) (hcam : p.conf.camera = false)
    (hrun : TrackBox.runUpdates clocks tb = some tbn) :
    ∃ pn, tbn.persistence = some pn ∧ pn.conf = p.conf ∧
      pn.time = p.time + clocks.length := by
  induction clocks generalizing tb p with
  | nil =>
    refine ⟨p, ?_, rfl, by simp⟩
    unfold TrackBox.runUpdates at hrun
    rw [← (Option.some.injEq _ _ ▸ hrun : tb = tbn)]
    exact hp
  | cons c cs ih =>
    unfold TrackBox.runUpdates at hrun
    rw [Option.bind_eq_some] at hrun
    obtain ⟨tb1, hupd, hrest⟩ := hrun
    obtain ⟨p1, hp1, hconf1, htime1⟩ := update_some_cases c tb tb1 p hp hupd
    obtain ⟨pn, hpn, hconfn, htimen⟩ := ih tb1 p1 hp1 (by rw [hconf1]; exact hcam) hrest
    refine ⟨pn, hpn, by rw [hconfn, hconf1], ?_⟩
    rw [htimen, htime1 hcam]
    simp [List.length_cons]
    omega

def tb0 : TrackBox := { boxes := [boxA], persistence := none }

/-- Claim C2 counterexample: enabling persistence on a fresh zone set with
intervalSeconds = 0 does not fail and does not leave persistence disabled —
`config_save` performs no validation, so the state becomes enabled with the
zero interval stored, the file truncated and the header written. -/
theorem config_save_zero_interval_enables :
    (tb0.config_save "out.csv" 0 10 1 false).persistence =
      some ({ conf := { save_path := "out.csv", interval := 0, fps := 10,
                        speed := 1, camera := false },
              time := 0, file := [Entry.header false ["A"]] } : PersistState) := by
  decide

/-- Claim C2 (amended): the persistence-enable operation validates nothing:
for every intervalSeconds and fps — including values ≤ 0 — the call succeeds,
leaves the zones untouched, truncates the destination to a single header
line, and stores the configuration with elapsedFrames = 0 and speedMultiplier
clamped to a minimum of 1.  (Invalid interval/fps values only fail later,
inside the scheduler step.) -/
theorem config_save_always_enables (path : String) (interval fps speed : ℤ)
    (camera : Bool) (tb : TrackBox) :
    (tb.config_save path interval fps speed camera).boxes = tb.boxes ∧
    (tb.config_save path interval fps speed camera).persistence =
      some ({ conf := { save_path := path, interval := interval, fps := fps,
                        speed := max 1 speed, camera := camera },
              time := 0,
              file := [Entry.header camera (tb.boxes.map Box.name)] } : PersistState) ∧
    1 ≤ max 1 speed :=
  ⟨rfl, rfl, le_max_left 1 speed⟩

/-- Claim C6 counterexample: calling the enable operation a second time does
not fail with AlreadyEnabled — it succeeds, re-truncates the destination and
writes a fresh header (so the file is re-opened for the header a second
time), replacing the first configuration entirely. -/
theorem config_save_twice_succeeds :
    ((tb0.config_save "out.csv" 2 10 1 false).config_save "out.csv" 3 5 2 true).persistence =
      some ({ conf := { save_path := "out.csv", interval := 3, fps := 5,
                        speed := 2, camera := true },
              time := 0, file := [Entry.header true ["A"]] } : PersistState) := by
  decide

/-- Claim C6 (amended): the enable operation is not once-only: a repeated
call is indistinguishable from a first call on the same zones — it
re-opens/truncates the destination, writes the header again, resets
elapsedFrames to 0 and overwrites the stored configuration, with no
AlreadyEnabled error. -/
theorem config_save_overwrites (path1 path2 : String) (i1 f1 s1 i2 f2 s2 : ℤ)
    (c1 c2 : Bool) (tb : TrackBox) :
    (tb.config_save path1 i1 f1 s1 c1).config_save path2 i2 f2 s2 c2 =
      tb.config_save path2 i2 f2 s2 c2 := rfl

-- The claim-side trigger formula (truncate the product, then divide) equals
-- the code's `current`: with integer time and speed the truncation is the
-- identity.
theorem currentQ_claim_form (p : PersistState) :
    ((ratTrunc ((p.time : ℚ) * (p.conf.speed : ℚ)) : ℚ) / (p.conf.fps : ℚ)) = currentQ p := by
  have h1 : ((p.time : ℚ) * (p.conf.speed : ℚ)) = (((p.time : ℤ) * p.conf.speed : ℤ) : ℚ) := by
    push_cast
    ring
  rw [h1, ratTrunc_intCast]
  rfl

/-- Claim C3: given an enabled configuration with nonzero fps and interval
and every history nonempty (the state of the persistence path), the
scheduler step succeeds, and it appends a data row if and only if the
pre-increment elapsedFrames is nonzero and
truncate(elapsedFrames × speedMultiplier) / fps is ≡ 0 modulo
intervalSeconds; in particular nothing is written when elapsedFrames = 0. -/
theorem save_writes_iff (now : String) (tb : TrackBox) (p : PersistState)
    (hp : tb.persistence = some p) (hfps : p.conf.fps ≠ 0)
    (hint : p.conf.interval ≠ 0) (hhist : ∀ b ∈ tb.boxes, b.history ≠ []) :
    ∃ tb2 p2, TrackBox.save now tb = some tb2 ∧ tb2.persistence = some p2 ∧
      ((∃ ts vals, p2.file = p.file ++ [Entry.row ts vals]) ↔
        (p.time ≠ 0 ∧
          pyMod ((ratTrunc ((p.time : ℚ) * (p.conf.speed : ℚ)) : ℚ) / (p.conf.fps : ℚ))
            (p.conf.interval : ℚ) = 0)) ∧
      (p.time = 0 → p2.file = p.file) := by
  obtain ⟨vals, hvals⟩ := mapM_getValue_some tb.boxes hhist
  rw [currentQ_claim_form]
  by_cases ht : p.time = 0
  · refine ⟨tb, p, save_skip now tb p hp hfps (Or.inl ht), hp, ?_, fun _ => rfl⟩
    constructor
    · rintro ⟨ts, vs, habs⟩
      simp at habs
    · rintro ⟨ht2, _⟩
      exact absurd ht ht2
  · by_cases hmod : pyMod (currentQ p) (p.conf.interval : ℚ) = 0
    · refine ⟨_, _, save_write now tb p vals hp hfps hint ht hmod hvals, rfl, ?_,
        fun h0 => absurd h0 ht⟩
      constructor
      · intro _
        exact ⟨ht, hmod⟩
      · intro _
        exact ⟨_, vals, rfl⟩
    · refine ⟨tb, p, save_skip now tb p hp hfps (Or.inr ⟨hint, hmod⟩), hp, ?_,
        fun _ => rfl⟩
      constructor
      · rintro ⟨ts, vs, habs⟩
        simp at habs
      · rintro ⟨_, hm⟩
        exact absurd hm hmod

-- Concrete enabled states used by the scheduler witnesses.

def boxH1 : Box := { boxA with history := [1] }

def confS : SaveConf :=
  { save_path := "out.csv", interval := 2, fps := 10, speed := 1, camera := false }

def pS : PersistState :=
  { conf := confS, time := 20, file := [Entry.header false ["A"]] }

def tbS : TrackBox := { boxes := [boxH1], persistence := some pS }

def pW : PersistState :=
  { conf := confS, time := 0, file := [Entry.header false ["A"]] }

def tbW : TrackBox := { boxes := [boxH1], persistence := some pW }

/-- Claim C3 witness: the scheduler step on a concrete enabled state with
elapsedFrames = 20, fps = 10, speed = 1, interval = 2 and one zone whose
history is [1]. -/
theorem save_writes_iff_witness :
    ∃ tb2 p2, TrackBox.save "12:00:00" tbS = some tb2 ∧ tb2.persistence = some p2 ∧
      ((∃ ts vals, p2.file = pS.file ++ [Entry.row ts vals]) ↔
        (pS.time ≠ 0 ∧
          pyMod ((ratTrunc ((pS.time : ℚ) * (pS.conf.speed : ℚ)) : ℚ) / (pS.conf.fps : ℚ))
            (pS.conf.interval : ℚ) = 0)) ∧
      (pS.time = 0 → p2.file = pS.file) :=
  save_writes_iff "12:00:00" tbS pS rfl (by decide) (by decide) (by decide)

/-- Claim C4: a successful scheduler step either leaves the file unchanged or
appends exactly one row; in camera mode elapsedFrames is 0 immediately after
the step exactly on a write (and is untouched otherwise), and in non-camera
mode the step preserves elapsedFrames and every update tick increases it by
exactly one, so over any run of ticks it is monotonically non-decreasing. -/
theorem elapsed_frames_policy (now : String) (tb tb2 tbn : TrackBox)
    (p p2 : PersistState) (clocks : List String)
    (hp : tb.persistence = some p)
    (hsave : TrackBox.save now tb = some tb2) (hp2 : tb2.persistence = some p2)
    (hrun : TrackBox.runUpdates clocks tb = some tbn) :
    (p2.file = p.file ∨ ∃ ts vals, p2.file = p.file ++ [Entry.row ts vals]) ∧
    (p.conf.camera = true →
      ((∃ ts vals, p2.file = p.file ++ [Entry.row ts vals]) → p2.time = 0) ∧
      (p2.file = p.file → p2.time = p.time)) ∧
    (p.conf.camera = false →
      p2.time = p.time ∧
      ∃ pn, tbn.persistence = some pn ∧ pn.time = p.time + clocks.length) := by
  have htrace : p.conf.camera = false →
      ∃ pn, tbn.persistence = some pn ∧ pn.time = p.time + clocks.length := by
    intro hcam
    obtain ⟨pn, h1, _, h3⟩ := runUpdates_time clocks tb tbn p hp hcam hrun
    exact ⟨pn, h1, h3⟩
  rcases (save_some_cases now tb tb2 p hp hsave).2 with ⟨heq, _⟩ | ⟨vals, _, _, _, _, heq⟩
  · subst heq
    rw [hp] at hp2
    have hpp : p = p2 := by injection hp2
    subst hpp
    refine ⟨Or.inl rfl, fun _ => ⟨?_, fun _ => rfl⟩, fun hcam => ⟨rfl, htrace hcam⟩⟩
    rintro ⟨ts, vs, habs⟩
    simp at habs
  · subst heq
    have hp2e : some (
        { conf := p.conf,
          time := if p.conf.camera then 0 else p.time,
          file := p.file ++ [Entry.row
            (if p.conf.camera then Timestamp.wall now
             else Timestamp.second (ratTrunc (currentQ p))) vals] } : PersistState) =
        some p2 := hp2
    have hpp : p2 =
        { conf := p.conf,
          time := if p.conf.camera then 0 else p.time,
          file := p.file ++ [Entry.row
            (if p.conf.camera then Timestamp.wall now
             else Timestamp.second (ratTrunc (currentQ p))) vals] } := by
      injection hp2e with h
      exact h.symm
    subst hpp
    refine ⟨Or.inr ⟨_, vals, rfl⟩, fun hcam => ⟨fun _ => ?_, fun habs => ?_⟩,
      fun hcam => ⟨?_, htrace hcam⟩⟩
    · simp [hcam]
    · exfalso
      simp at habs
    · simp [hcam]

/-- Claim C4 witness: a non-camera enabled state at elapsedFrames = 0; the
step leaves the file and counter unchanged and an empty run adds zero
ticks. -/
theorem elapsed_frames_policy_witness :
    (pW.file = pW.file ∨ ∃ ts vals, pW.file = pW.file ++ [Entry.row ts vals]) ∧
    (pW.conf.camera = true →
      ((∃ ts vals, pW.file = pW.file ++ [Entry.row ts vals]) → pW.time = 0) ∧
      (pW.file = pW.file → pW.time = pW.time)) ∧
    (pW.conf.camera = false →
      pW.time = pW.time ∧
      ∃ pn, tbW.persistence = some pn ∧
        pn.time = pW.time + List.length ([] : List String)) :=
  elapsed_frames_policy "12:00:00" tbW tbW tbW pW pW [] rfl
    (save_skip "12:00:00" tbW pW rfl (by decide) (Or.inl rfl)) rfl rfl

-- Scenario B arithmetic: the trigger condition for interval 2, fps 10,
-- speed 1 is exactly divisibility of the frame counter by 20.
theorem pyMod_scenarioB (t : ℕ) :
    pyMod ((t : ℚ) / 10) 2 = 0 ↔ 20 ∣ t := by
  rw [pyMod_eq_zero_iff (by norm_num)]
  constructor
  · rintro ⟨k, hk⟩
    have hq : (t : ℚ) = 20 * (k : ℚ) := by
      field_simp at hk
      linarith
    have hz : (t : ℤ) = 20 * k := by exact_mod_cast hq
    have hdvd : ((20 : ℕ) : ℤ) ∣ (t : ℤ) := ⟨k, by push_cast; omega⟩
    exact_mod_cast hdvd
  · rintro ⟨m, rfl⟩
    refine ⟨(m : ℤ), ?_⟩
    push_cast
    ring

/-- Claim C5: with intervalSeconds = 2, fps = 10, speedMultiplier = 1 and
camera mode off, and every history nonempty, the scheduler step succeeds and
appends a row exactly when the pre-increment elapsedFrames is a nonzero
multiple of 20 (that is at 20, 40, 60, …); at elapsedFrames = 20·(k+1) the
row's recorded timestamp is the integer second value 2·(k+1). -/
theorem scenarioB (now : String) (tb : TrackBox) (p : PersistState) (k : ℕ)
    (hp : tb.persistence = some p)
    (hi : p.conf.interval = 2) (hf : p.conf.fps = 10) (hsp : p.conf.speed = 1)
    (hc : p.conf.camera = false)
    (hhist : ∀ b ∈ tb.boxes, b.history ≠ []) :
    (∃ tb2 p2, TrackBox.save now tb = some tb2 ∧ tb2.persistence = some p2 ∧
      ((∃ ts vals, p2.file = p.file ++ [Entry.row ts vals]) ↔
        (p.time ≠ 0 ∧ 20 ∣ p.time))) ∧
    (p.time = 20 * (k + 1) →
      ∃ vals tb2 p2, tb.boxes.mapM Box.get_value = some vals ∧
        TrackBox.save now tb = some tb2 ∧ tb2.persistence = some p2 ∧
        p2.file = p.file ++ [Entry.row (Timestamp.second (2 * (k + 1) : ℤ)) vals]) := by
  obtain ⟨vals, hvals⟩ := mapM_getValue_some tb.boxes hhist
  have hfps : p.conf.fps ≠ 0 := by rw [hf]; norm_num
  have hint : p.conf.interval ≠ 0 := by rw [hi]; norm_num
  have hcur : currentQ p = (p.time : ℚ) / 10 := by
    unfold currentQ
    rw [hsp, hf]
    push_cast
    ring
  have hmod_iff : (pyMod (currentQ p) (p.conf.interval : ℚ) = 0) ↔ 20 ∣ p.time := by
    have h2 : ((p.conf.interval : ℤ) : ℚ) = 2 := by rw [hi]; norm_num
    rw [hcur, h2]
    exact pyMod_scenarioB p.time
  constructor
  · by_cases ht : p.time = 0
    · refine ⟨tb, p, save_skip now tb p hp hfps (Or.inl ht), hp, ?_⟩
      constructor
      · rintro ⟨ts, vs, habs⟩
        simp at habs
      · rintro ⟨ht2, _⟩
        exact absurd ht ht2
    · by_cases hdvd : 20 ∣ p.time
      · refine ⟨_, _, save_write now tb p vals hp hfps hint ht (hmod_iff.mpr hdvd) hvals,
          rfl, ?_⟩
        constructor
        · intro _
          exact ⟨ht, hdvd⟩
        · intro _
          exact ⟨_, vals, rfl⟩
      · refine ⟨tb, p, save_skip now tb p hp hfps
          (Or.inr ⟨hint, fun hm => hdvd (hmod_iff.mp hm)⟩), hp, ?_⟩
        constructor
        · rintro ⟨ts, vs, habs⟩
          simp at habs
        · rintro ⟨_, hm⟩
          exact absurd hm hdvd
  · intro ht20
    have ht : p.time ≠ 0 := by omega
    have hmod : pyMod (currentQ p) (p.conf.interval : ℚ) = 0 :=
      hmod_iff.mpr ⟨k + 1, ht20⟩
    refine ⟨vals, _, _, hvals,
      save_write now tb p vals hp hfps hint ht hmod hvals, rfl, ?_⟩
    have hts : currentQ p = ((2 * (k + 1) : ℤ) : ℚ) := by
      rw [hcur, ht20]
      push_cast
      ring
    rw [hts, ratTrunc_intCast, hc]
    simp

/-- Claim C5 witness: the concrete enabled state with elapsedFrames = 20 and
scenario-B configuration, at k = 0. -/
theorem scenarioB_witness :
    (∃ tb2 p2, TrackBox.save "12:00:00" tbS = some tb2 ∧ tb2.persistence = some p2 ∧
      ((∃ ts vals, p2.file = pS.file ++ [Entry.row ts vals]) ↔
        (pS.time ≠ 0 ∧ 20 ∣ pS.time))) ∧
    (pS.time = 20 * (0 + 1) →
      ∃ vals tb2 p2, tbS.boxes.mapM Box.get_value = some vals ∧
        TrackBox.save "12:00:00" tbS = some tb2 ∧ tb2.persistence = some p2 ∧
        p2.file = pS.file ++ [Entry.row (Timestamp.second (2 * (0 + 1) : ℤ)) vals]) :=
  scenarioB "12:00:00" tbS pS 0 rfl rfl rfl rfl rfl (by decide)

/-- Claim C10: the update tick appends to every zone's history before the
scheduler step runs, so (for zones with smoothness ≥ 1, the configured
minimum) every history handed to the row writer is nonempty, every
`get_value` occurring in the row succeeds, and an update of a validly
configured enabled state never raises. -/
theorem persistence_path_histories (now : String) (tb : TrackBox) (p : PersistState)
    (hs : ∀ b ∈ tb.boxes, 1 ≤ b.smoothness)
    (hp : tb.persistence = some p) (hfps : p.conf.fps ≠ 0)
    (hint : p.conf.interval ≠ 0) :
    (∀ b ∈ tb.boxes.map Box.update, b.history ≠ []) ∧
    (∃ vals, (tb.boxes.map Box.update).mapM Box.get_value = some vals) ∧
    TrackBox.update now tb ≠ none := by
  have h1 : ∀ b ∈ tb.boxes.map Box.update, b.history ≠ [] := by
    intro b hb
    rw [List.mem_map] at hb
    obtain ⟨b0, hb0, rfl⟩ := hb
    have hm := hs b0 hb0
    have hlen : (Box.update b0).history.length = min (b0.history.length + 1) b0.smoothness :=
      dequeAppend_length _ _ _
    intro hnil
    rw [hnil] at hlen
    simp only [List.length_nil] at hlen
    omega
  have h2 := mapM_getValue_some (tb.boxes.map Box.update) h1
  obtain ⟨boxes, pers⟩ := tb
  have hpe : pers = some p := hp
  subst hpe
  refine ⟨h1, h2, ?_⟩
  obtain ⟨vals, hvals⟩ := h2
  simp only [TrackBox.update]
  rw [Ne, Option.map_eq_none']
  have hpt : ({ boxes := List.map Box.update boxes, persistence := some p } :
      TrackBox).persistence = some p := rfl
  by_cases htime : p.time = 0
  · rw [save_skip now _ p hpt hfps (Or.inl htime)]
    simp
  · by_cases hmod : pyMod (currentQ p) (p.conf.interval : ℚ) = 0
    · rw [save_write now _ p vals hpt hfps hint htime hmod hvals]
      simp
    · rw [save_skip now _ p hpt hfps (Or.inr ⟨hint, hmod⟩)]
      simp

/-- Claim C10 witness: the concrete enabled state with one zone of
smoothness 3 and the scenario-B configuration. -/
theorem persistence_path_histories_witness :
    (∀ b ∈ tbW.boxes.map Box.update, b.history ≠ []) ∧
    (∃ vals, (tbW.boxes.map Box.update).mapM Box.get_value = some vals) ∧
    TrackBox.update "12:00:00" tbW ≠ none :=
  persistence_path_histories "12:00:00" tbW pW (by decide) rfl (by decide) (by decide)

end TrackBoxModel
